import Mathlib

/-!
Shallow embedding of `mipsevm/solutil.go`: the solidity source-map decoder,
position indexer, byte expander and lookup (`SourceMap.Info`).

Modelling conventions:
* Go machine integers become `Nat`/`Int`; `uint32` arithmetic carries an
  explicit `% 2 ^ 32`, and the `int32(...)` conversion is `toInt32`.
* Go slice indexing that can panic is modelled with `Option`: a function
  returning `none` models an index-out-of-range panic.
* `os.ReadFile` is modelled by an explicit filesystem `fs : String → Option String`;
  `none` models a read error (the wrapped OS error text is platform text and is
  modelled by the fixed suffix "file not found").
* `fmt.Printf` diagnostics (the "out of instructions" message) are side effects
  with no influence on the returned values and are not modelled.
-/

/-- Model of `LineCol` (solutil.go): a 1-based line and 0-based column, both
`uint32` in Go, modelled as `Nat` kept below `2 ^ 32`. -/
structure LineCol where
  Line : Nat
  Col : Nat
deriving DecidableEq

/-- Model of `InstrMapping` (solutil.go): `S`, `L`, `F`, `M` are Go `int32`
(modelled as `Int`), `J` is a Go `byte` (modelled as `Nat`). -/
structure InstrMapping where
  S : Int
  L : Int
  F : Int
  J : Nat
  M : Int
deriving DecidableEq

/-- Go `strings.Split` for a single-character separator, on the character list:
splitting the empty list yields one empty piece, exactly like Go. -/
def splitAux (sep : Char) : List Char → List Char → List String
  | [], acc => [String.mk acc.reverse]
  | c :: rest, acc =>
    if c = sep then String.mk acc.reverse :: splitAux sep rest []
    else splitAux sep rest (c :: acc)

/-- Go `strings.Split s (String.mk [sep])` for the one-character separators
`":"` and `";"` used by solutil.go. -/
def splitOnStr (s : String) (sep : Char) : List String :=
  splitAux sep s.data []

/-- Error kind of Go `strconv.ParseInt` (a `*strconv.NumError`): either
invalid syntax or value out of range, carrying the offending input string. -/
inductive NumErr where
  | invalid (s : String)
  | outOfRange (s : String)
deriving DecidableEq

/-- The offending input string carried by a `strconv` error. -/
def NumErr.str : NumErr → String
  | .invalid s => s
  | .outOfRange s => s

/-- Rendering of a `*strconv.NumError` by its `Error()` method, as wrapped by
`fmt.Errorf("...: %w", err)` in solutil.go. -/
def NumErr.msg : NumErr → String
  | .invalid s => "strconv.ParseInt: parsing \"" ++ s ++ "\": invalid syntax"
  | .outOfRange s => "strconv.ParseInt: parsing \"" ++ s ++ "\": value out of range"

/-- Numeric value of a list of decimal digit characters. -/
def digitsVal (cs : List Char) : Nat :=
  cs.foldl (fun a c => a * 10 + (c.toNat - 48)) 0

/-- Model of Go `strconv.ParseInt(x, 10, 32)`: returns the parsed value and an
optional error. On syntax error the value is 0; on range error it is the
clamped extremal `int32`, exactly as Go documents. -/
def parseInt32 (s : String) : Int × Option NumErr :=
  match s.data with
  | [] => (0, some (.invalid s))
  | cs =>
    let signDigits : Bool × List Char :=
      match cs with
      | '+' :: rest => (false, rest)
      | '-' :: rest => (true, rest)
      | _ => (false, cs)
    let neg := signDigits.1
    let ds := signDigits.2
    if ds = [] ∨ ¬ ds.all (fun c => c.isDigit) then (0, some (.invalid s))
    else
      let n : Int := (digitsVal ds : Nat)
      let v : Int := if neg then -n else n
      if v < -(2 ^ 31) then (-(2 ^ 31), some (.outOfRange s))
      else if (2 ^ 31 - 1 : Int) < v then (2 ^ 31 - 1, some (.outOfRange s))
      else (v, none)

/-- First byte of the UTF-8 encoding of a character: models Go's `data[3][0]`,
indexing the first byte of a (non-empty) string. -/
def utf8FirstByte (c : Char) : Nat :=
  if c.toNat < 0x80 then c.toNat
  else if c.toNat < 0x800 then 0xC0 + c.toNat / 64
  else if c.toNat < 0x10000 then 0xE0 + c.toNat / 4096
  else 0xF0 + c.toNat / 262144

/-- First byte of a Go string, `s[0]`; total (only ever used on non-empty
strings, matching the `data[3] != ""` guard in the source). -/
def strFirstByte (s : String) : Nat :=
  match s.data with
  | [] => 0
  | c :: _ => utf8FirstByte c

/-- Errors produced by `parseInstrMapping`: the explicit "unexpected length"
error, or a wrapped `strconv` error. -/
inductive MapErr where
  | badLength (n : Nat)
  | num (e : NumErr)
deriving DecidableEq

/-- Rendering of a `parseInstrMapping` error by `Error()`. -/
def MapErr.msg : MapErr → String
  | .badLength n => "unexpected length: " ++ toString n
  | .num e => e.msg

/-- Model of `parseInstrMapping` (solutil.go lines 28-71): split the record on
`:` and overlay each present field onto `last`, stopping (with the record as
updated so far) at the first guard `len(data) < k || err != nil` that fires. -/
def parseInstrMapping (last : InstrMapping) (v : String) : InstrMapping × Option MapErr :=
  let data := splitOnStr v ':'
  if data.length < 1 then (last, none)
  else if 5 < data.length then (last, some (.badLength data.length))
  else
    let d0 := data.getD 0 ""
    let p0 := if d0 = "" then (last, (none : Option MapErr))
      else ({ last with S := (parseInt32 d0).1 }, (parseInt32 d0).2.map MapErr.num)
    if data.length < 2 ∨ p0.2.isSome then p0
    else
      let d1 := data.getD 1 ""
      let p1 := if d1 = "" then p0
        else ({ p0.1 with L := (parseInt32 d1).1 }, (parseInt32 d1).2.map MapErr.num)
      if data.length < 3 ∨ p1.2.isSome then p1
      else
        let d2 := data.getD 2 ""
        let p2 := if d2 = "" then p1
          else ({ p1.1 with F := (parseInt32 d2).1 }, (parseInt32 d2).2.map MapErr.num)
        if data.length < 4 ∨ p2.2.isSome then p2
        else
          let d3 := data.getD 3 ""
          let p3 := if d3 = "" then p2 else ({ p2.1 with J := strFirstByte d3 }, p2.2)
          if data.length < 5 ∨ p3.2.isSome then p3
          else
            let d4 := data.getD 4 ""
            if d4 = "" then p3
            else ({ p3.1 with M := (parseInt32 d4).1 }, (parseInt32 d4).2.map MapErr.num)

/-- Model of the `SourceMap` struct (solutil.go). -/
structure SourceMap where
  Sources : List String
  PosData : List (Option (List LineCol))
  Instr : List InstrMapping
deriving DecidableEq

/-- Go's `int32(n)` conversion of a nonnegative length: wrap into the signed
32-bit range. -/
def toInt32 (n : Int) : Int :=
  (n + 2 ^ 31) % 2 ^ 32 - 2 ^ 31

/-- Model of `(*SourceMap).Info` (solutil.go lines 82-102). A result of
`none` models a Go index-out-of-range panic; `some (source, line, col)`
models a normal return. -/
def SourceMap.Info (s : SourceMap) (pc : Nat) : Option (String × Nat × Nat) :=
  match s.Instr.get? pc with
  | none => none
  | some instr =>
    if instr.F < 0 then some ("", 0, 0)
    else if toInt32 (s.Sources.length : Int) ≤ instr.F then some ("unknown", 0, 0)
    else
      match s.Sources.get? instr.F.toNat with
      | none => none
      | some source =>
        if instr.S < 0 then some (source, 0, 0)
        else
          match s.PosData.get? instr.F.toNat with
          | none => none
          | some none => some (source, 0, 0)
          | some (some tbl) =>
            match tbl.get? instr.S.toNat with
            | none => none
            | some lc => some (source, lc.Line, lc.Col)

/-- Loop body of the position indexer (solutil.go lines 131-140): Go's
`for i, b := range datStr` visits rune start offsets, so `i` advances by the
UTF-8 size of each character and only rune-start entries of the
pre-allocated table are written. -/
def posLoop : List Char → Nat → Nat → Nat → List LineCol → List LineCol
  | [], _, _, _, out => out
  | b :: rest, i, line, lastLinePos, out =>
    let col := (i - lastLinePos) % 2 ^ 32
    let out := out.set i { Line := line, Col := col }
    if b = '\n' then
      posLoop rest (i + b.utf8Size) ((line + 1) % 2 ^ 32) (i % 2 ^ 32) out
    else
      posLoop rest (i + b.utf8Size) line lastLinePos out

/-- Byte length of a string's UTF-8 encoding, `len(datStr)` in Go. -/
def utf8Len : List Char → Nat
  | [] => 0
  | c :: rest => c.utf8Size + utf8Len rest

/-- Position table of one source file: `make([]LineCol, len(datStr))` is
zero-initialised, then the range loop fills it. -/
def mkPosData (dat : String) : List LineCol :=
  posLoop dat.data 0 1 0 (List.replicate (utf8Len dat.data) { Line := 0, Col := 0 })

/-- Go `strings.HasPrefix s "~"`, testing the synthetic-source sentinel. -/
def startsWithTilde (s : String) : Bool :=
  match s.data with
  | c :: _ => c = '~'
  | [] => false

/-- Position-table construction loop of `ParseSourceMap` (solutil.go lines
124-143): one entry per source, `none` for `~`-flagged sources (never read),
otherwise the indexed contents; a failed read aborts with the formatted
error identifying the file index and path. -/
def buildPosData (fs : String → Option String) : List String → Nat → Except String (List (Option (List LineCol)))
  | [], _ => .ok []
  | s :: rest, i =>
    if startsWithTilde s then
      match buildPosData fs rest (i + 1) with
      | .error e => .error e
      | .ok tail => .ok (none :: tail)
    else
      match fs s with
      | none => .error ("failed to read source " ++ toString i ++ " \"" ++ s ++ "\": file not found")
      | some dat =>
        match buildPosData fs rest (i + 1) with
        | .error e => .error e
        | .ok tail => .ok (some (mkPosData dat) :: tail)

/-- Instruction byte length (solutil.go lines 150-155): `instLen := 1`,
plus `inst - 0x60 + 1` immediate bytes for push opcodes `0x60..0x7f`. -/
def instLen (inst : Nat) : Nat :=
  if 0x60 ≤ inst ∧ inst ≤ 0x7f then 1 + (inst - 0x60 + 1) else 1

/-- Byte-expander loop of `ParseSourceMap` (solutil.go lines 148-175). The
loop advances `i` by `instLen` per iteration; here the remaining bytecode is
the list suffix and the `fuel` argument bounds the iteration count (each
iteration consumes at least one byte, so fuel `len bytecode` is enough).
Note that the Go loop never reassigns `lastInstr`, so every record is decoded
against the initial value. -/
def expandGo (instructions : List String) (lastInstr : InstrMapping) :
    Nat → List Nat → Nat → List InstrMapping → Except String (List InstrMapping)
  | _, [], _, acc => .ok acc
  | 0, _ :: _, _, acc => .ok acc
  | fuel + 1, inst :: rest, instIndex, acc =>
    let instMapping := if instructions.length ≤ instIndex then "" else instructions.getD instIndex ""
    match parseInstrMapping lastInstr instMapping with
    | (_, some e) => .error ("failed to parse instr element in source map: " ++ e.msg)
    | (m, none) =>
      expandGo instructions lastInstr fuel (rest.drop (instLen inst - 1)) (instIndex + 1)
        (acc ++ List.replicate (instLen inst) m)

/-- Model of `ParseSourceMap` (solutil.go lines 107-177): build the per-file
position tables, then expand the semicolon-separated records over the
bytecode. -/
def ParseSourceMap (fs : String → Option String) (sources : List String)
    (bytecode : List Nat) (sourceMap : String) : Except String SourceMap :=
  let instructions := splitOnStr sourceMap ';'
  match buildPosData fs sources 0 with
  | .error e => .error e
  | .ok posData =>
    match expandGo instructions { S := 0, L := 0, F := 0, J := 0, M := 0 }
        bytecode.length bytecode 0 [] with
    | .error e => .error e
    | .ok instr => .ok { Sources := sources, PosData := posData, Instr := instr }

/-- The empty filesystem: every read fails. -/
def fsEmpty : String → Option String := fun _ => none

/-- Helper for stating facts about a build result: the length of the
instruction table of a successful build. -/
def instrTableLen (r : Except String SourceMap) : Option Nat :=
  match r with
  | .ok m => some m.Instr.length
  | .error _ => none

/-- Helper: a string containing no decimal digit at all (so in particular it
is not annotated with any instruction index). -/
def hasNoDigit (s : String) : Bool :=
  s.data.all (fun c => !c.isDigit)

/-- The exact error string returned by the build for the mapping "0;x"
(whose record at instruction index 1 is malformed). -/
def errC8 : String :=
  "failed to parse instr element in source map: strconv.ParseInt: parsing \"x\": invalid syntax"

/-- A filesystem containing the single one-byte file "a.sol". -/
def fsA : String → Option String := fun n => if n = "a.sol" then some "x" else none

/-- The source map built from file "a.sol" = "x", bytecode [0x00], mapping
"5:1:0": its only instruction mapping has start 5, pointing past the end of
the one-entry position table. -/
def smC3 : SourceMap := ⟨["a.sol"], [some [⟨1, 0⟩]], [⟨5, 1, 0, 0, 0⟩]⟩

/-- C1 counterexample: on the source text "ab\ncd" the Position Indexer does
NOT produce the table claimed: the entry at offset 3 is (line 2, col 1), not
(2, 0), because the newline's own offset (not the offset after it) is
recorded as the line start. -/
theorem c1_position_indexer_counterexample :
    mkPosData "ab\ncd" ≠ [⟨1, 0⟩, ⟨1, 1⟩, ⟨1, 2⟩, ⟨2, 0⟩, ⟨2, 1⟩] := by decide

/-- C1 amended: the Position Indexer on "ab\ncd" produces
0 -> (1,0), 1 -> (1,1), 2 -> (1,2), 3 -> (2,1), 4 -> (2,2); the first byte
after a newline has column 1, since `lastLinePos` records the newline's own
byte offset. -/
theorem c1_position_indexer :
    mkPosData "ab\ncd" = [⟨1, 0⟩, ⟨1, 1⟩, ⟨1, 2⟩, ⟨2, 1⟩, ⟨2, 2⟩] := by decide

/-- C2 counterexample: bytecode [0x60] (a PUSH1 whose immediate extends past
the end of the bytecode) with the empty mapping builds successfully, and the
instruction table has length 2 while the bytecode has length 1. -/
theorem c2_length_counterexample :
    instrTableLen (ParseSourceMap fsEmpty [] [0x60] "") = some 2 ∧
    instrTableLen (ParseSourceMap fsEmpty [] [0x60] "") ≠ some 1 := by
  constructor
  · rfl
  · decide

/-- C3: the successfully built map `smC3` has an instruction mapping with
fileIndex 0 in range, start 5 nonnegative, a non-nil one-entry position table
for file 0, and `Info 0` hits an out-of-range index (modelled by `none`,
a panic) rather than returning a defined result. -/
theorem c3_info_out_of_range_panic :
    ParseSourceMap fsA ["a.sol"] [0] "5:1:0" = .ok smC3 ∧
    smC3.Instr.get? 0 = some ⟨5, 1, 0, 0, 0⟩ ∧
    (0 : Int) ≤ (5 : Int) ∧
    smC3.PosData.get? 0 = some (some [⟨1, 0⟩]) ∧
    ([(⟨1, 0⟩ : LineCol)]).length ≤ 5 ∧
    smC3.Info 0 = none :=
  ⟨rfl, rfl, by decide, rfl, by decide, rfl⟩

/-- C5: decoding the mapping string "1:2:0:-:0;:::i:;3" record by record from
the zero seed record, carrying each decoded record into the next call as
`last`, yields (1,2,0,45,0) (45 = the byte of the character for a regular
jump), then (1,2,0,105,0) (105 = the byte of the character for an into jump,
only the jump kind changed), then (3,2,0,105,0) (only the start changed,
every other field inherited); no record errors. -/
theorem c5_decoder_inheritance :
    splitOnStr "1:2:0:-:0;:::i:;3" ';' = ["1:2:0:-:0", ":::i:", "3"] ∧
    parseInstrMapping ⟨0, 0, 0, 0, 0⟩ "1:2:0:-:0" = (⟨1, 2, 0, 45, 0⟩, none) ∧
    parseInstrMapping ⟨1, 2, 0, 45, 0⟩ ":::i:" = (⟨1, 2, 0, 105, 0⟩, none) ∧
    parseInstrMapping ⟨1, 2, 0, 105, 0⟩ "3" = (⟨3, 2, 0, 105, 0⟩, none) := by
  refine ⟨by decide, ?_, ?_, ?_⟩ <;> rfl

/-- C7: with bytecode [0x00, 0x00] and the single-record mapping "1:2:3" the
build succeeds (record underflow is non-fatal), but the second instruction
receives the zero record, not the last decoded record (1,2,3,0,0): the Go
loop never reassigns `lastInstr`, so the out-of-records decode of the empty
string inherits from the zero record. Decoding the empty record against the
actual last decoded record would have reproduced it, as the second conjunct
shows. -/
theorem c7_underflow_uses_zero_record :
    ParseSourceMap fsEmpty [] [0, 0] "1:2:3" =
      .ok ⟨[], [], [⟨1, 2, 3, 0, 0⟩, ⟨0, 0, 0, 0, 0⟩]⟩ ∧
    parseInstrMapping ⟨1, 2, 3, 0, 0⟩ "" = (⟨1, 2, 3, 0, 0⟩, none) ∧
    (⟨0, 0, 0, 0, 0⟩ : InstrMapping) ≠ ⟨1, 2, 3, 0, 0⟩ :=
  ⟨rfl, rfl, by decide⟩

/-- C8 counterexample: for bytecode [0x00, 0x00] and mapping "0;x" (the
record at instruction index 1 is malformed) the build fails with an error
that contains the offending substring but no digit at all, so it is not
annotated with the instruction index. -/
theorem c8_no_index_annotation_counterexample :
    ParseSourceMap fsEmpty [] [0, 0] "0;x" = .error errC8 ∧
    hasNoDigit errC8 = true :=
  ⟨rfl, by decide⟩

/-- C9: decoding an empty record string against any carried record `last`
returns `last` unchanged in every field, with no error: the empty record is
an identity for the decoder's overlay step. -/
theorem c9_empty_record_identity (last : InstrMapping) :
    parseInstrMapping last "" = (last, none) := rfl

lemma toInt32_le_of_le {n F : Int} (hn : 0 ≤ n) (h : n ≤ F) : toInt32 n ≤ F := by
  unfold toInt32
  omega

/-- C6: for every source map and in-range pc whose instruction mapping has
fileIndex at least 0 and at least the number of sources, Info returns source
name "unknown" with line 0 and column 0, and never panics (the result is a
defined value, not `none`). -/
theorem c6_unknown_file_index (s : SourceMap) (pc : Nat) (instr : InstrMapping)
    (hpc : s.Instr.get? pc = some instr) (h0 : 0 ≤ instr.F)
    (hlen : (s.Sources.length : Int) ≤ instr.F) :
    s.Info pc = some ("unknown", 0, 0) := by
  unfold SourceMap.Info
  rw [hpc]
  dsimp only
  rw [if_neg (by omega), if_pos (toInt32_le_of_le (by positivity) hlen)]

/-- Witness for C6 at a concrete map: one instruction with fileIndex 5 and an
empty source table. -/
theorem c6_unknown_file_index_witness :
    (SourceMap.mk [] [] [⟨0, 0, 5, 0, 0⟩]).Info 0 = some ("unknown", 0, 0) :=
  c6_unknown_file_index (SourceMap.mk [] [] [⟨0, 0, 5, 0, 0⟩]) 0 ⟨0, 0, 5, 0, 0⟩
    rfl (by decide) (by decide)

/-- Total number of table entries the byte expander appends for a given
bytecode: the sum of the instruction lengths over the instruction starts
(same walk as `expandGo`, without the decoding). -/
def expandedLenGo : Nat → List Nat → Nat
  | _, [] => 0
  | 0, _ :: _ => 0
  | fuel + 1, inst :: rest => instLen inst + expandedLenGo fuel (rest.drop (instLen inst - 1))

/-- Sum of the instruction lengths of a bytecode, walked from offset 0. -/
def expandedLen (bytecode : List Nat) : Nat :=
  expandedLenGo bytecode.length bytecode

lemma instLen_pos (inst : Nat) : 1 ≤ instLen inst := by
  unfold instLen
  split <;> omega

lemma expandedLenGo_ge (fuel : Nat) :
    ∀ rem : List Nat, rem.length ≤ fuel → rem.length ≤ expandedLenGo fuel rem := by
  induction fuel with
  | zero =>
    intro rem h
    cases rem with
    | nil => simp [expandedLenGo]
    | cons a t => simp at h
  | succ f ih =>
    intro rem h
    cases rem with
    | nil => simp [expandedLenGo]
    | cons inst rest =>
      rw [expandedLenGo]
      have h1 := instLen_pos inst
      simp only [List.length_cons] at h
      have h2 := ih (rest.drop (instLen inst - 1)) (by simp only [List.length_drop]; omega)
      simp only [List.length_drop] at h2
      simp only [List.length_cons]
      omega

lemma expandGo_length (instructions : List String) (lastInstr : InstrMapping) :
    ∀ (fuel : Nat) (rem : List Nat) (instIndex : Nat) (acc out : List InstrMapping),
      expandGo instructions lastInstr fuel rem instIndex acc = .ok out →
      out.length = acc.length + expandedLenGo fuel rem := by
  intro fuel
  induction fuel with
  | zero =>
    intro rem instIndex acc out h
    cases rem with
    | nil =>
      simp [expandGo] at h
      simp [expandedLenGo, ← h]
    | cons a t =>
      simp [expandGo] at h
      simp [expandedLenGo, ← h]
  | succ f ih =>
    intro rem instIndex acc out h
    cases rem with
    | nil =>
      simp [expandGo] at h
      simp [expandedLenGo, ← h]
    | cons inst rest =>
      rw [expandGo] at h
      split at h
      · simp at h
      · have := ih _ _ _ _ h
        rw [expandedLenGo]
        simp [List.length_append, List.length_replicate] at this
        omega

lemma expandGo_prefix (instructions : List String) (lastInstr : InstrMapping) :
    ∀ (fuel : Nat) (rem : List Nat) (instIndex : Nat) (acc out : List InstrMapping),
      expandGo instructions lastInstr fuel rem instIndex acc = .ok out →
      ∃ t, out = acc ++ t := by
  intro fuel
  induction fuel with
  | zero =>
    intro rem instIndex acc out h
    cases rem with
    | nil => simp [expandGo] at h; exact ⟨[], by simp [← h]⟩
    | cons a t => simp [expandGo] at h; exact ⟨[], by simp [← h]⟩
  | succ f ih =>
    intro rem instIndex acc out h
    cases rem with
    | nil => simp [expandGo] at h; exact ⟨[], by simp [← h]⟩
    | cons inst rest =>
      rw [expandGo] at h
      split at h
      · simp at h
      · rename_i x m heq
        obtain ⟨t, rfl⟩ := ih _ _ _ _ h
        exact ⟨List.replicate (instLen inst) m ++ t, by simp⟩

/-- C2 amended: for every source list, bytecode, and mapping string on which
ParseSourceMap succeeds, the per-byte instruction table's length is the sum
of the instruction lengths, which is at least the bytecode's length; it
exceeds it exactly when the final instruction is a push whose immediate
bytes extend past the end of the bytecode. -/
theorem c2_instr_table_length (fs : String → Option String) (sources : List String)
    (bytecode : List Nat) (sourceMap : String) (m : SourceMap)
    (h : ParseSourceMap fs sources bytecode sourceMap = .ok m) :
    m.Instr.length = expandedLen bytecode ∧ bytecode.length ≤ m.Instr.length := by
  unfold ParseSourceMap at h
  split at h
  · simp at h
  · dsimp only at h
    split at h
    · simp at h
    · rename_i posData hpos instr hexp
      simp only [Except.ok.injEq] at h
      subst h
      have hl := expandGo_length _ _ _ _ _ _ _ hexp
      have hg := expandedLenGo_ge bytecode.length bytecode le_rfl
      simp only [List.length_nil, Nat.zero_add] at hl
      exact ⟨hl, by rw [hl]; exact hg⟩

/-- Witness for C2 amended at a concrete successful build. -/
theorem c2_instr_table_length_witness :
    (SourceMap.mk [] [] [⟨0, 0, 0, 0, 0⟩]).Instr.length = expandedLen [0] ∧
    ([0] : List Nat).length ≤ (SourceMap.mk [] [] [⟨0, 0, 0, 0, 0⟩]).Instr.length :=
  c2_instr_table_length fsEmpty [] [0] "" (SourceMap.mk [] [] [⟨0, 0, 0, 0, 0⟩]) rfl

lemma get?_append_length_add {α : Type} (l₁ l₂ : List α) (j : Nat) :
    (l₁ ++ l₂).get? (l₁.length + j) = l₂.get? j := by
  induction l₁ with
  | nil => simp
  | cons a l ih =>
    simp only [List.cons_append, List.length_cons]
    rw [show l.length + 1 + j = (l.length + j) + 1 by omega]
    simpa using ih

lemma get?_replicate_append {α : Type} (n j : Nat) (a : α) (t : List α) (h : j < n) :
    (List.replicate n a ++ t).get? j = some a := by
  induction n generalizing j with
  | zero => omega
  | succ k ih =>
    cases j with
    | zero => simp [List.replicate]
    | succ i =>
      simp only [List.replicate, List.cons_append, List.get?]
      exact ih i (by omega)

/-- C4: whenever the byte expander succeeds on a bytecode suffix starting
with opcode `inst`, then (i) a push opcode `0x60 + k` (k in 0..31) has
instruction length `2 + k` and any opcode outside `0x60..0x7f` has length 1;
and (ii) the current record decodes to a single mapping `m` that fills all
`instLen inst` table entries of this instruction, after which the walk
resumes exactly `instLen inst` bytes further on. -/
theorem c4_push_expansion (instructions : List String) (lastInstr : InstrMapping)
    (fuel inst instIndex : Nat) (rest : List Nat) (acc out : List InstrMapping)
    (hok : expandGo instructions lastInstr (fuel + 1) (inst :: rest) instIndex acc = .ok out) :
    (∀ k, k ≤ 31 → inst = 0x60 + k → instLen inst = 2 + k) ∧
    ((inst < 0x60 ∨ 0x7f < inst) → instLen inst = 1) ∧
    ∃ m, parseInstrMapping lastInstr
        (if instructions.length ≤ instIndex then "" else instructions.getD instIndex "") =
          (m, none) ∧
      (∀ j, j < instLen inst → out.get? (acc.length + j) = some m) ∧
      expandGo instructions lastInstr fuel (rest.drop (instLen inst - 1)) (instIndex + 1)
        (acc ++ List.replicate (instLen inst) m) = .ok out := by
  refine ⟨?_, ?_, ?_⟩
  · intro k hk hins
    subst hins
    unfold instLen
    rw [if_pos (by omega)]
    omega
  · intro hout
    unfold instLen
    rw [if_neg (by omega)]
  · rw [expandGo] at hok
    split at hok
    · simp at hok
    · rename_i x m heq
      refine ⟨m, heq, ?_, hok⟩
      intro j hj
      obtain ⟨t, rfl⟩ := expandGo_prefix instructions lastInstr _ _ _ _ _ hok
      rw [List.append_assoc, get?_append_length_add, get?_replicate_append _ _ _ _ hj]

/-- Witness for C4: a PUSH2 opcode (0x62 = 0x60 + 1 with k = 1 ... here
0x61) fills 3 identical entries and the walk resumes 3 bytes further on. -/
theorem c4_push_expansion_witness :
    (∀ k, k ≤ 31 → 0x61 = 0x60 + k → instLen 0x61 = 2 + k) ∧
    ((0x61 < 0x60 ∨ 0x7f < 0x61) → instLen 0x61 = 1) ∧
    ∃ m, parseInstrMapping ⟨0, 0, 0, 0, 0⟩
        (if ([ "0:0:0" ] : List String).length ≤ 0 then ""
         else ([ "0:0:0" ] : List String).getD 0 "") = (m, none) ∧
      (∀ j, j < instLen 0x61 →
        ([⟨0, 0, 0, 0, 0⟩, ⟨0, 0, 0, 0, 0⟩, ⟨0, 0, 0, 0, 0⟩, ⟨0, 0, 0, 0, 0⟩] :
          List InstrMapping).get? (([] : List InstrMapping).length + j) = some m) ∧
      expandGo ["0:0:0"] ⟨0, 0, 0, 0, 0⟩ 3 ([7, 8, 9].drop (instLen 0x61 - 1)) 1
        ([] ++ List.replicate (instLen 0x61) m) =
        .ok [⟨0, 0, 0, 0, 0⟩, ⟨0, 0, 0, 0, 0⟩, ⟨0, 0, 0, 0, 0⟩, ⟨0, 0, 0, 0, 0⟩] :=
  c4_push_expansion ["0:0:0"] ⟨0, 0, 0, 0, 0⟩ 3 0x61 0 [7, 8, 9] []
    [⟨0, 0, 0, 0, 0⟩, ⟨0, 0, 0, 0, 0⟩, ⟨0, 0, 0, 0, 0⟩, ⟨0, 0, 0, 0, 0⟩] rfl

lemma buildPosData_length (fs : String → Option String) :
    ∀ (srcs : List String) (i : Nat) (l : List (Option (List LineCol))),
      buildPosData fs srcs i = .ok l → l.length = srcs.length := by
  intro srcs
  induction srcs with
  | nil => intro i l h; simp [buildPosData] at h; simp [← h]
  | cons s rest ih =>
    intro i l h
    rw [buildPosData] at h
    split at h
    · split at h
      · simp at h
      · rename_i tail htail
        simp only [Except.ok.injEq] at h
        subst h
        simp [ih _ _ htail]
    · split at h
      · simp at h
      · split at h
        · simp at h
        · rename_i tail htail
          simp only [Except.ok.injEq] at h
          subst h
          simp [ih _ _ htail]

lemma buildPosData_none_iff (fs : String → Option String) :
    ∀ (srcs : List String) (i : Nat) (l : List (Option (List LineCol))),
      buildPosData fs srcs i = .ok l →
      ∀ j, j < srcs.length →
        (l.get? j = some none ↔ startsWithTilde (srcs.getD j "") = true) := by
  intro srcs
  induction srcs with
  | nil => intro i l h j hj; simp at hj
  | cons s rest ih =>
    intro i l h j hj
    rw [buildPosData] at h
    split at h
    · rename_i hts
      split at h
      · simp at h
      · rename_i tail htail
        simp only [Except.ok.injEq] at h
        subst h
        cases j with
        | zero => simpa using hts
        | succ j' =>
          simp only [List.get?, List.getD, List.length_cons] at *
          exact ih _ _ htail j' (by omega)
    · rename_i hts
      split at h
      · simp at h
      · split at h
        · simp at h
        · rename_i tail htail
          simp only [Except.ok.injEq] at h
          subst h
          cases j with
          | zero =>
            simp only [List.get?, List.getD_cons_zero]
            constructor
            · intro hc; simp at hc
            · intro hc; exact absurd hc hts
          | succ j' =>
            simp only [List.get?, List.getD, List.length_cons] at *
            exact ih _ _ htail j' (by omega)

lemma buildPosData_fs_congr (fs fs' : String → Option String) :
    ∀ (srcs : List String) (i : Nat),
      (∀ s ∈ srcs, startsWithTilde s = false → fs' s = fs s) →
      buildPosData fs' srcs i = buildPosData fs srcs i := by
  intro srcs
  induction srcs with
  | nil => intro i hagree; rfl
  | cons s rest ih =>
    intro i hagree
    rw [buildPosData, buildPosData]
    split
    · rw [ih (i + 1) (fun t ht hf => hagree t (List.mem_cons_of_mem s ht) hf)]
    · rename_i hts
      rw [hagree s (List.mem_cons_self s rest) (by simpa using hts)]
      rw [ih (i + 1) (fun t ht hf => hagree t (List.mem_cons_of_mem s ht) hf)]

/-- C10: after every successful ParseSourceMap the position-table sequence
has exactly one entry per source name, an entry is `none` (Go nil) exactly
when the corresponding source name starts with the sentinel character, any
fileIndex in range for Sources is in range for PosData, and the result does
not depend on the on-disk contents of sentinel-flagged files (they are never
read). -/
theorem c10_posdata_invariants (fs : String → Option String) (sources : List String)
    (bytecode : List Nat) (sourceMap : String) (m : SourceMap)
    (h : ParseSourceMap fs sources bytecode sourceMap = .ok m) :
    m.Sources = sources ∧
    m.PosData.length = m.Sources.length ∧
    (∀ i, i < m.Sources.length →
      (m.PosData.get? i = some none ↔ startsWithTilde (sources.getD i "") = true)) ∧
    (∀ F : Nat, F < m.Sources.length → F < m.PosData.length) ∧
    ∀ fs' : String → Option String,
      (∀ s ∈ sources, startsWithTilde s = false → fs' s = fs s) →
      ParseSourceMap fs' sources bytecode sourceMap = .ok m := by
  unfold ParseSourceMap at h
  split at h
  · simp at h
  · rename_i posData hpos
    dsimp only at h
    split at h
    · simp at h
    · rename_i instr hexp
      simp only [Except.ok.injEq] at h
      subst h
      have hlen := buildPosData_length fs sources 0 posData hpos
      refine ⟨rfl, by simpa using hlen, ?_, ?_, ?_⟩
      · intro i hi
        exact buildPosData_none_iff fs sources 0 posData hpos i (by simpa using hi)
      · intro F hF
        simp only at hF ⊢
        omega
      · intro fs' hagree
        unfold ParseSourceMap
        rw [buildPosData_fs_congr fs fs' sources 0 hagree, hpos]
        dsimp only
        rw [hexp]

/-- A filesystem containing the single empty file "b.sol". -/
def fsB : String → Option String := fun n => if n = "b.sol" then some "" else none

/-- Witness for C10 at a concrete build with one sentinel source and one real
source. -/
theorem c10_posdata_invariants_witness :
    (SourceMap.mk ["~gen", "b.sol"] [none, some []] []).Sources = ["~gen", "b.sol"] ∧
    (SourceMap.mk ["~gen", "b.sol"] [none, some []] []).PosData.length =
      (SourceMap.mk ["~gen", "b.sol"] [none, some []] []).Sources.length ∧
    (∀ i, i < (SourceMap.mk ["~gen", "b.sol"] [none, some []] []).Sources.length →
      ((SourceMap.mk ["~gen", "b.sol"] [none, some []] []).PosData.get? i = some none ↔
        startsWithTilde ((["~gen", "b.sol"] : List String).getD i "") = true)) ∧
    (∀ F : Nat, F < (SourceMap.mk ["~gen", "b.sol"] [none, some []] []).Sources.length →
      F < (SourceMap.mk ["~gen", "b.sol"] [none, some []] []).PosData.length) ∧
    ∀ fs' : String → Option String,
      (∀ s ∈ (["~gen", "b.sol"] : List String), startsWithTilde s = false → fs' s = fsB s) →
      ParseSourceMap fs' ["~gen", "b.sol"] [] "" =
        .ok (SourceMap.mk ["~gen", "b.sol"] [none, some []] []) :=
  c10_posdata_invariants fsB ["~gen", "b.sol"] [] ""
    (SourceMap.mk ["~gen", "b.sol"] [none, some []] []) rfl


lemma parseInt32_err_str (s : String) (e : NumErr) (h : (parseInt32 s).2 = some e) :
    e.str = s := by
  have key : e = .invalid s ∨ e = .outOfRange s := by
    unfold parseInt32 at h
    split at h
    · simp at h; exact Or.inl h.symm
    · dsimp only at h
      repeat' split at h
      all_goals simp at h
      all_goals first | exact Or.inl h.symm | exact Or.inr h.symm
  rcases key with rfl | rfl <;> rfl

lemma c8_fail_k1 (last : InstrMapping) (v : String) (e : NumErr)
    (hlen : (splitOnStr v ':').length ≤ 5)
    (hp : (splitOnStr v ':').getD 1 "" ≠ "")
    (h0 : (splitOnStr v ':').getD 0 "" ≠ "" →
      (parseInt32 ((splitOnStr v ':').getD 0 "")).2 = none)
    (hf : (parseInt32 ((splitOnStr v ':').getD 1 "")).2 = some e) :
    (parseInstrMapping last v).2 = some (.num e) ∧
    (parseInstrMapping last v).1.F = last.F ∧
    (parseInstrMapping last v).1.J = last.J ∧
    (parseInstrMapping last v).1.M = last.M := by
  rcases hdata : splitOnStr v ':' with _ | ⟨a0, _ | ⟨a1, tail⟩⟩
  · rw [hdata] at hp; simp [List.getD] at hp
  · rw [hdata] at hp; simp [List.getD] at hp
  · rw [hdata] at hp h0 hf hlen
    simp only [List.getD_cons_zero, List.getD_cons_succ] at hp h0 hf
    simp only [List.length_cons] at hlen
    simp only [parseInstrMapping, hdata]
    rw [if_neg (by simp), if_neg (by simp only [List.length_cons]; omega)]
    by_cases h00 : a0 = ""
    · simp [h00, hp, hf]
      try rw [if_neg (by omega)]
      try simp
    · have e0 := h0 h00
      simp [h00, e0, hp, hf]
      try rw [if_neg (by omega)]
      try simp

lemma c8_fail_k2 (last : InstrMapping) (v : String) (e : NumErr)
    (hlen : (splitOnStr v ':').length ≤ 5)
    (hp : (splitOnStr v ':').getD 2 "" ≠ "")
    (h0 : (splitOnStr v ':').getD 0 "" ≠ "" →
      (parseInt32 ((splitOnStr v ':').getD 0 "")).2 = none)
    (h1 : (splitOnStr v ':').getD 1 "" ≠ "" →
      (parseInt32 ((splitOnStr v ':').getD 1 "")).2 = none)
    (hf : (parseInt32 ((splitOnStr v ':').getD 2 "")).2 = some e) :
    (parseInstrMapping last v).2 = some (.num e) ∧
    (parseInstrMapping last v).1.J = last.J ∧
    (parseInstrMapping last v).1.M = last.M := by
  rcases hdata : splitOnStr v ':' with _ | ⟨a0, _ | ⟨a1, _ | ⟨a2, tail⟩⟩⟩
  · rw [hdata] at hp; simp [List.getD] at hp
  · rw [hdata] at hp; simp [List.getD] at hp
  · rw [hdata] at hp; simp [List.getD] at hp
  · rw [hdata] at hp h0 h1 hf hlen
    simp only [List.getD_cons_zero, List.getD_cons_succ] at hp h0 h1 hf
    simp only [List.length_cons] at hlen
    simp only [parseInstrMapping, hdata]
    rw [if_neg (by simp), if_neg (by simp only [List.length_cons]; omega)]
    by_cases h00 : a0 = "" <;> by_cases h01 : a1 = ""
    · simp [h00, h01, hp, hf]
      try rw [if_neg (by omega)]
      try rw [if_neg (by omega)]
      try simp
    · have e1 := h1 h01
      simp [h00, h01, e1, hp, hf]
      try rw [if_neg (by omega)]
      try rw [if_neg (by omega)]
      try simp
    · have e0 := h0 h00
      simp [h00, h01, e0, hp, hf]
      try rw [if_neg (by omega)]
      try rw [if_neg (by omega)]
      try simp
    · have e0 := h0 h00
      have e1 := h1 h01
      simp [h00, h01, e0, e1, hp, hf]
      try rw [if_neg (by omega)]
      try rw [if_neg (by omega)]
      try simp

lemma c8_fail_k4 (last : InstrMapping) (v : String) (e : NumErr)
    (hlen : (splitOnStr v ':').length ≤ 5)
    (hp : (splitOnStr v ':').getD 4 "" ≠ "")
    (h0 : (splitOnStr v ':').getD 0 "" ≠ "" →
      (parseInt32 ((splitOnStr v ':').getD 0 "")).2 = none)
    (h1 : (splitOnStr v ':').getD 1 "" ≠ "" →
      (parseInt32 ((splitOnStr v ':').getD 1 "")).2 = none)
    (h2 : (splitOnStr v ':').getD 2 "" ≠ "" →
      (parseInt32 ((splitOnStr v ':').getD 2 "")).2 = none)
    (hf : (parseInt32 ((splitOnStr v ':').getD 4 "")).2 = some e) :
    (parseInstrMapping last v).2 = some (.num e) := by
  rcases hdata : splitOnStr v ':' with _ | ⟨a0, _ | ⟨a1, _ | ⟨a2, _ | ⟨a3, _ | ⟨a4, tail⟩⟩⟩⟩⟩
  · rw [hdata] at hp; simp [List.getD] at hp
  · rw [hdata] at hp; simp [List.getD] at hp
  · rw [hdata] at hp; simp [List.getD] at hp
  · rw [hdata] at hp; simp [List.getD] at hp
  · rw [hdata] at hp; simp [List.getD] at hp
  · rw [hdata] at hlen
    rcases tail with _ | ⟨a5, tail⟩
    · rw [hdata] at hp h0 h1 h2 hf
      simp only [List.getD_cons_zero, List.getD_cons_succ] at hp h0 h1 h2 hf
      simp only [parseInstrMapping, hdata]
      rw [if_neg (by simp), if_neg (by simp)]
      by_cases h00 : a0 = "" <;> by_cases h01 : a1 = "" <;> by_cases h02 : a2 = "" <;>
        by_cases h03 : a3 = ""
      · simp [h00, h01, h02, h03, hp, hf]
      · simp [h00, h01, h02, h03, hp, hf]
      · have e2 := h2 h02
        simp [h00, h01, h02, h03, e2, hp, hf]
      · have e2 := h2 h02
        simp [h00, h01, h02, h03, e2, hp, hf]
      · have e1 := h1 h01
        simp [h00, h01, h02, h03, e1, hp, hf]
      · have e1 := h1 h01
        simp [h00, h01, h02, h03, e1, hp, hf]
      · have e1 := h1 h01
        have e2 := h2 h02
        simp [h00, h01, h02, h03, e1, e2, hp, hf]
      · have e1 := h1 h01
        have e2 := h2 h02
        simp [h00, h01, h02, h03, e1, e2, hp, hf]
      · have e0 := h0 h00
        simp [h00, h01, h02, h03, e0, hp, hf]
      · have e0 := h0 h00
        simp [h00, h01, h02, h03, e0, hp, hf]
      · have e0 := h0 h00
        have e2 := h2 h02
        simp [h00, h01, h02, h03, e0, e2, hp, hf]
      · have e0 := h0 h00
        have e2 := h2 h02
        simp [h00, h01, h02, h03, e0, e2, hp, hf]
      · have e0 := h0 h00
        have e1 := h1 h01
        simp [h00, h01, h02, h03, e0, e1, hp, hf]
      · have e0 := h0 h00
        have e1 := h1 h01
        simp [h00, h01, h02, h03, e0, e1, hp, hf]
      · have e0 := h0 h00
        have e1 := h1 h01
        have e2 := h2 h02
        simp [h00, h01, h02, h03, e0, e1, e2, hp, hf]
      · have e0 := h0 h00
        have e1 := h1 h01
        have e2 := h2 h02
        simp [h00, h01, h02, h03, e0, e1, e2, hp, hf]
    · simp at hlen

lemma c8_fail_k0 (last : InstrMapping) (v : String) (e : NumErr)
    (hlen : (splitOnStr v ':').length ≤ 5)
    (hp : (splitOnStr v ':').getD 0 "" ≠ "")
    (hf : (parseInt32 ((splitOnStr v ':').getD 0 "")).2 = some e) :
    (parseInstrMapping last v).2 = some (.num e) ∧
    (parseInstrMapping last v).1.L = last.L ∧
    (parseInstrMapping last v).1.F = last.F ∧
    (parseInstrMapping last v).1.J = last.J ∧
    (parseInstrMapping last v).1.M = last.M := by
  rcases hdata : splitOnStr v ':' with _ | ⟨a0, tail⟩
  · rw [hdata] at hp; simp [List.getD] at hp
  · rw [hdata] at hp hf hlen
    simp only [List.getD_cons_zero] at hp hf
    simp only [List.length_cons] at hlen
    simp only [parseInstrMapping, hdata]
    rw [if_neg (by simp), if_neg (by simp only [List.length_cons]; omega)]
    simp [hp, hf]

/-- The numeric field positions of a mapping record (field 3, the jump kind,
is a raw character, not numeric). -/
def numericFieldPositions : List Nat := [0, 1, 2, 4]

/-- The fields strictly after position `k` of `out` agree with `last`. -/
def laterFieldsEq (k : Nat) (out last : InstrMapping) : Prop :=
  (k < 1 → out.L = last.L) ∧ (k < 2 → out.F = last.F) ∧
  (k < 3 → out.J = last.J) ∧ (k < 4 → out.M = last.M)

lemma expandGo_error_step (instructions : List String) (lastInstr : InstrMapping)
    (fuel inst instIndex : Nat) (rest : List Nat) (acc : List InstrMapping) (e : MapErr)
    (he : (parseInstrMapping lastInstr
      (if instructions.length ≤ instIndex then ""
       else instructions.getD instIndex "")).2 = some e) :
    expandGo instructions lastInstr (fuel + 1) (inst :: rest) instIndex acc =
      .error ("failed to parse instr element in source map: " ++ e.msg) := by
  rw [expandGo]
  split
  · rename_i x m e' hpe
    rw [hpe] at he
    simp at he
    rw [he]
  · rename_i x m hpe
    rw [hpe] at he
    simp at he

/-- C8 amended: for every record in which a present numeric field (position
0, 1, 2 or 4) fails to parse as a signed 32-bit integer (every earlier
present numeric field parsing successfully), the decoder returns that
strconv error, whose carried offending substring is exactly the failing
field; no field after the failing position is changed from `last`; and
whenever the byte expander reaches that record, the whole build fails with
the error wrapped in the fixed message "failed to parse instr element in
source map" — without any instruction-index annotation. -/
theorem c8_numeric_field_failure (last : InstrMapping) (v : String) (k : Nat) (e : NumErr)
    (hk : k ∈ numericFieldPositions)
    (hlen : (splitOnStr v ':').length ≤ 5)
    (hpres : (splitOnStr v ':').getD k "" ≠ "")
    (hfail : (parseInt32 ((splitOnStr v ':').getD k "")).2 = some e)
    (hbefore : ∀ j ∈ numericFieldPositions, j < k →
      (splitOnStr v ':').getD j "" ≠ "" →
      (parseInt32 ((splitOnStr v ':').getD j "")).2 = none) :
    (parseInstrMapping last v).2 = some (.num e) ∧
    e.str = (splitOnStr v ':').getD k "" ∧
    laterFieldsEq k (parseInstrMapping last v).1 last ∧
    ∀ (instructions : List String) (fuel inst instIndex : Nat) (rest : List Nat)
      (acc : List InstrMapping),
      instIndex < instructions.length → instructions.getD instIndex "" = v →
      expandGo instructions last (fuel + 1) (inst :: rest) instIndex acc =
        .error ("failed to parse instr element in source map: " ++ (MapErr.num e).msg) := by
  have hstr := parseInt32_err_str _ _ hfail
  have hmain : (parseInstrMapping last v).2 = some (.num e) ∧
      laterFieldsEq k (parseInstrMapping last v).1 last := by
    have hk' : k = 0 ∨ k = 1 ∨ k = 2 ∨ k = 4 := by
      simpa [numericFieldPositions] using hk
    rcases hk' with rfl | rfl | rfl | rfl
    · obtain ⟨h1, h2, h3, h4, h5⟩ := c8_fail_k0 last v e hlen hpres hfail
      exact ⟨h1, fun _ => h2, fun _ => h3, fun _ => h4, fun _ => h5⟩
    · obtain ⟨h1, h2, h3, h4⟩ := c8_fail_k1 last v e hlen hpres
        (hbefore 0 (by simp [numericFieldPositions]) (by omega)) hfail
      exact ⟨h1, fun hc => absurd hc (by omega), fun _ => h2, fun _ => h3, fun _ => h4⟩
    · obtain ⟨h1, h2, h3⟩ := c8_fail_k2 last v e hlen hpres
        (hbefore 0 (by simp [numericFieldPositions]) (by omega))
        (hbefore 1 (by simp [numericFieldPositions]) (by omega)) hfail
      exact ⟨h1, fun hc => absurd hc (by omega), fun hc => absurd hc (by omega),
        fun _ => h2, fun _ => h3⟩
    · have h1 := c8_fail_k4 last v e hlen hpres
        (hbefore 0 (by simp [numericFieldPositions]) (by omega))
        (hbefore 1 (by simp [numericFieldPositions]) (by omega))
        (hbefore 2 (by simp [numericFieldPositions]) (by omega)) hfail
      exact ⟨h1, fun hc => absurd hc (by omega), fun hc => absurd hc (by omega),
        fun hc => absurd hc (by omega), fun hc => absurd hc (by omega)⟩
  refine ⟨hmain.1, hstr, hmain.2, ?_⟩
  intro instructions fuel inst instIndex rest acc hidx hv
  apply expandGo_error_step
  rw [if_neg (by omega), hv]
  exact hmain.1

/-- Witness for C8 amended: the single-field record "x" fails at position 0
with the offending substring "x", leaves every later field of the carried
record (9,8,7,6,5) unchanged, and aborts any expander run that reaches it. -/
theorem c8_numeric_field_failure_witness :
    (parseInstrMapping ⟨9, 8, 7, 6, 5⟩ "x").2 = some (.num (.invalid "x")) ∧
    (NumErr.invalid "x").str = (splitOnStr "x" ':').getD 0 "" ∧
    laterFieldsEq 0 (parseInstrMapping ⟨9, 8, 7, 6, 5⟩ "x").1 ⟨9, 8, 7, 6, 5⟩ ∧
    ∀ (instructions : List String) (fuel inst instIndex : Nat) (rest : List Nat)
      (acc : List InstrMapping),
      instIndex < instructions.length → instructions.getD instIndex "" = "x" →
      expandGo instructions ⟨9, 8, 7, 6, 5⟩ (fuel + 1) (inst :: rest) instIndex acc =
        .error ("failed to parse instr element in source map: " ++
          (MapErr.num (.invalid "x")).msg) :=
  c8_numeric_field_failure ⟨9, 8, 7, 6, 5⟩ "x" 0 (.invalid "x") (by decide) (by decide)
    (by decide) (by decide) (fun j hj hlt => absurd hlt (by omega))

/-- Witness for C9 at a concrete carried record. -/
theorem c9_empty_record_identity_witness :
    parseInstrMapping ⟨1, 2, 3, 4, 5⟩ "" = (⟨1, 2, 3, 4, 5⟩, none) :=
  c9_empty_record_identity ⟨1, 2, 3, 4, 5⟩
